import Mathlib

/-!
Shallow embedding of the marbles-style trading chaincode
(src/hyperledger/part2/part2_chaincode.go) and proofs about its
item repository, order book, matching engine and reconciler.

Modelling conventions:
* The ledger is `Store : String → Option Val`, where `Val` is a structured
  view of the JSON blobs the Go code writes.  `json.Unmarshal` into a zero
  value on a missing or foreign-shaped record is modelled by the `asBet`,
  `asIndex`, `asTrades` projections returning Go zero values.
* Each state-mutating operation returns `Store × TxRes`; the store component
  carries every write issued up to the point of return, so partial writes
  before an error are observable.  `TxRes.crash` models a Go runtime panic
  (index out of range), which is not an error return.
* Machine integers are modelled as `Int` (overflow plays no role in any
  claim).  `strconv.Atoi` / `strconv.ParseInt` are modelled by `strconvAtoi`.
* `strings.ToLower` is modelled by `lowerStr` (ASCII folding, which is all
  the claims exercise).
* The Go source declares the second `Description` field as `Amount` but every
  use site reads and writes `.Size`; the model follows the use sites.
-/

namespace Marbles

/-- ASCII lower-casing, modelling `strings.ToLower` on the inputs used here. -/
def lowerStr (s : String) : String := String.mk (s.data.map Char.toLower)

/-- Decimal digit test on a character. -/
def isDigitCh (c : Char) : Bool := 48 ≤ c.toNat && c.toNat ≤ 57

/-- Value of a digit string (most significant first). -/
def digitsVal (l : List Char) : Int :=
  l.foldl (fun a c => a * 10 + (Int.ofNat (c.toNat - 48))) 0

/-- Model of `strconv.Atoi` / `strconv.ParseInt (base 10)`:
optional sign followed by at least one digit, nothing else. -/
def strconvAtoi (s : String) : Option Int :=
  match s.data with
  | [] => none
  | c :: rest =>
    if c = '+' then
      if rest ≠ [] ∧ rest.all isDigitCh then some (digitsVal rest) else none
    else if c = '-' then
      if rest ≠ [] ∧ rest.all isDigitCh then some (-(digitsVal rest)) else none
    else if (c :: rest).all isDigitCh then some (digitsVal (c :: rest)) else none

/-- The `Bet` record (an item): name, color (kind), size (quantity), user (owner). -/
structure Bet where
  Name : String
  Color : String
  Size : Int
  User : String
deriving DecidableEq

/-- A `(kind, quantity)` description.  (The Go declaration tags the second
field `amount`, but every use site in the file reads and writes `.Size`.) -/
structure Description where
  Color : String
  Size : Int
deriving DecidableEq

/-- An open trade order. -/
structure AnOpenTrade where
  User : String
  Timestamp : Int
  Want : Description
  Willing : List Description
deriving DecidableEq

/-- Structured view of the values the chaincode stores. -/
inductive Val where
  | raw (s : String)
  | bet (b : Bet)
  | index (l : List String)
  | trades (l : List AnOpenTrade)
  | trade (t : AnOpenTrade)
  | descr (d : Description)
deriving DecidableEq

/-- The key/value ledger state. -/
def Store := String → Option Val

/-- `stub.PutState`. -/
def putState (st : Store) (k : String) (v : Val) : Store :=
  fun q => if q = k then some v else st q

/-- `stub.DelState`. -/
def delState (st : Store) (k : String) : Store :=
  fun q => if q = k then none else st q

/-- `json.Unmarshal` of a stored value into a `Bet`; anything that is not a
bet record leaves the Go zero value. -/
def asBet : Option Val → Bet
  | some (.bet b) => b
  | _ => ⟨"", "", 0, ""⟩

/-- `json.Unmarshal` into the string list of the item index. -/
def asIndex : Option Val → List String
  | some (.index l) => l
  | _ => []

/-- `json.Unmarshal` into the open-trades aggregate. -/
def asTrades : Option Val → List AnOpenTrade
  | some (.trades l) => l
  | _ => []

/-- Outcome of one operation: normal return, error return, or runtime panic. -/
inductive TxRes where
  | ok
  | err (msg : String)
  | crash
deriving DecidableEq

/-- Key of the item index record. -/
def betIndexStr : String := "_betindex"

/-- Key of the open-trades record. -/
def openTradesStr : String := "_opentrades"

/-- The scan inside `findBet4Trade`: first bet in the index whose user and
color match case-insensitively and whose size matches exactly. -/
def findLoop (st : Store) (user color : String) (size : Int) :
    List String → Except String Bet
  | [] => .error "Did not find bet to use in this trade"
  | n :: rest =>
    let res := asBet (st n)
    if lowerStr res.User = lowerStr user ∧ lowerStr res.Color = lowerStr color ∧
        res.Size = size then
      .ok res
    else findLoop st user color size rest

/-- `findBet4Trade`: scan the item index for a bet owned by `user` of the
given color and size. -/
def findBet4Trade (st : Store) (user color : String) (size : Int) :
    Except String Bet :=
  findLoop st user color size (asIndex (st betIndexStr))

/-- Whether a `findBet4Trade` result is a hit (its Go error is nil). -/
def foundOk : Except String Bet → Bool
  | .ok _ => true
  | .error _ => false

/-- `init_bet`: create a new bet after sanity checks; owner must parse as an
integer and is stored in decimal; color is lower-cased; the name is appended
to the item index. -/
def init_bet (st : Store) (args : List String) : Store × TxRes :=
  match args with
  | [a0, a1, a2, a3] =>
    if a0 = "" then (st, .err "1st argument must be a non-empty string")
    else if a1 = "" then (st, .err "2nd argument must be a non-empty string")
    else if a2 = "" then (st, .err "3rd argument must be a non-empty string")
    else if a3 = "" then (st, .err "4th argument must be a non-empty string")
    else
      match strconvAtoi a3 with
      | none => (st, .err "4th argument must be a numeric string, 1 or 2")
      | some user =>
        match strconvAtoi a2 with
        | none => (st, .err "3rd argument must be a numeric string")
        | some size =>
          let res := asBet (st a0)
          if res.Name = a0 then (st, .err "This bet arleady exists")
          else
            let st1 := putState st a0 (.bet ⟨a0, lowerStr a1, size, toString user⟩)
            let betIndex := asIndex (st1 betIndexStr)
            let st2 := putState st1 betIndexStr (.index (betIndex ++ [a0]))
            (st2, .ok)
  | _ => (st, .err "Incorrect number of arguments. Expecting 4")

/-- Core of `set_user`: load (zero value if absent), overwrite the user field,
write back.  No existence validation. -/
def set_user_core (st : Store) (name newUser : String) : Store :=
  let res := asBet (st name)
  putState st name (.bet { res with User := newUser })

/-- `set_user` operation (at least two arguments required). -/
def set_user (st : Store) (args : List String) : Store × TxRes :=
  match args with
  | a0 :: a1 :: _ => (set_user_core st a0 a1, .ok)
  | _ => (st, .err "Incorrect number of arguments. Expecting 2")

/-- `Write`: store the value bytes verbatim under the given key. -/
def Write (st : Store) (args : List String) : Store × TxRes :=
  match args with
  | [name, value] => (putState st name (.raw value), .ok)
  | _ => (st, .err "Incorrect number of arguments. Expecting 2. name of the variable and value to set")

/-- Remove the first exact occurrence of a name from the index (the Go loop
breaks after the first hit). -/
def removeFirst : List String → String → List String
  | [], _ => []
  | x :: xs, n => if x = n then xs else x :: removeFirst xs n

/-- `Delete`: delete the key, drop the first index entry equal to it, and
write the index back unconditionally. -/
def Delete (st : Store) (args : List String) : Store × TxRes :=
  match args with
  | [name] =>
    let st1 := delState st name
    let betIndex := asIndex (st1 betIndexStr)
    let st2 := putState st1 betIndexStr (.index (removeFirst betIndex name))
    (st2, .ok)
  | _ => (st, .err "Incorrect number of arguments. Expecting 1")

/-- The willing-list loop of `open_trade`: consume (color, size) argument
pairs, writing a `_debug2` record per pair, then append the finished order to
the stored open trades. -/
def willingLoop (st : Store) (acc : AnOpenTrade) : List String → Store × TxRes
  | [] =>
    let trades := asTrades (st openTradesStr)
    (putState st openTradesStr (.trades (trades ++ [acc])), .ok)
  | [_] => (st, .crash)
  | c :: q :: rest =>
    match strconvAtoi q with
    | none => (st, .err ("is not a numeric string " ++ q))
    | some ws =>
      let d : Description := ⟨c, ws⟩
      let st1 := putState st "_debug2" (.descr d)
      willingLoop st1 { acc with Willing := acc.Willing ++ [d] } rest

/-- `open_trade`: build an open order (id from the millisecond clock, passed
here as `now`), writing a `_debug1` record before parsing the willing list. -/
def open_trade (st : Store) (args : List String) (now : Int) : Store × TxRes :=
  if args.length < 5 then (st, .err "Incorrect number of arguments. Expecting like 5?")
  else if args.length % 2 = 0 then
    (st, .err "Incorrect number of arguments. Expecting an odd number")
  else
    match args with
    | a0 :: a1 :: a2 :: rest =>
      match strconvAtoi a2 with
      | none => (st, .err "3rd argument must be a numeric string")
      | some size1 =>
        let opn : AnOpenTrade := ⟨a0, now, ⟨a1, size1⟩, []⟩
        let st1 := putState st "_debug1" (.trade opn)
        willingLoop st1 opn rest
    | _ => (st, .crash)

/-- The matching loop of `perform_trade`.  Go's `for i := range` fixes the
iteration count at entry (`fuel`), while the body indexes the current,
possibly shortened, slice: an index past the end is a runtime panic. -/
def performLoop (cu cn oc : String) (size ts : Int) :
    Nat → Nat → Store → List AnOpenTrade → Store × TxRes
  | 0, _, st, _ => (st, .ok)
  | fuel + 1, i, st, trades =>
    if h : i < trades.length then
      let t := trades.get ⟨i, h⟩
      if t.Timestamp = ts then
        let closersBet := asBet (st cn)
        if closersBet.Color ≠ t.Want.Color ∨ closersBet.Size ≠ t.Want.Size then
          (st, .err "bet in input does not meet trade requriements")
        else
          match findBet4Trade st t.User oc size with
          | .ok bet =>
            let st1 := set_user_core st cn t.User
            let st2 := set_user_core st1 bet.Name cu
            let trades1 := trades.eraseIdx i
            let st3 := putState st2 openTradesStr (.trades trades1)
            performLoop cu cn oc size ts fuel (i + 1) st3 trades1
          | .error _ => performLoop cu cn oc size ts fuel (i + 1) st trades
      else performLoop cu cn oc size ts fuel (i + 1) st trades
    else (st, .crash)

/-- `perform_trade`: close an open trade and move ownership both ways. -/
def perform_trade (st : Store) (args : List String) : Store × TxRes :=
  match args with
  | a0 :: a1 :: a2 :: _ :: a4 :: a5 :: _ =>
    match strconvAtoi a0 with
    | none => (st, .err "1st argument must be a numeric string")
    | some ts =>
      match strconvAtoi a5 with
      | none => (st, .err "6th argument must be a numeric string")
      | some size =>
        let trades := asTrades (st openTradesStr)
        performLoop a1 a2 a4 size ts trades.length 0 st trades
  | _ => (st, .err "Incorrect number of arguments. Expecting 6")

/-- Remove the first trade with the given timestamp; `none` when no trade
matched (the Go loop breaks after the first hit and only then writes). -/
def removeFirstTrade : List AnOpenTrade → Int → Option (List AnOpenTrade)
  | [], _ => none
  | t :: rest, ts =>
    if t.Timestamp = ts then some rest
    else
      match removeFirstTrade rest ts with
      | some r => some (t :: r)
      | none => none

/-- `remove_trade`: cancel the first open trade with the given id; silent
no-op when no trade matches. -/
def remove_trade (st : Store) (args : List String) : Store × TxRes :=
  match args with
  | a0 :: _ =>
    match strconvAtoi a0 with
    | none => (st, .err "1st argument must be a numeric string")
    | some ts =>
      let trades := asTrades (st openTradesStr)
      match removeFirstTrade trades ts with
      | some trades1 => (putState st openTradesStr (.trades trades1), .ok)
      | none => (st, .ok)
  | _ => (st, .err "Incorrect number of arguments. Expecting 1")

/-- Inner loop of `cleanTrades` over one order's willing list, with the
source's in-place splice and `x--`/`x++` compensation.  `fuel` is the measure
`w.length - x`, which the Go loop decreases by exactly one per iteration. -/
def innerLoopF (st : Store) (u : String) :
    Nat → List Description → Nat → Bool → List Description × Bool
  | 0, w, _, did => (w, did)
  | fuel + 1, w, x, did =>
    if h : x < w.length then
      let d := w.get ⟨x, h⟩
      if foundOk (findBet4Trade st u d.Color d.Size) then
        innerLoopF st u fuel w (x + 1) did
      else
        innerLoopF st u fuel (w.eraseIdx x) x true
    else (w, did)

/-- Outer loop of `cleanTrades` over the order list, with the source's
in-place splice and `i--`/`i++` compensation. -/
def outerLoopF (st : Store) :
    Nat → List AnOpenTrade → Nat → Bool → List AnOpenTrade × Bool
  | 0, l, _, did => (l, did)
  | fuel + 1, l, i, did =>
    if h : i < l.length then
      let t := l.get ⟨i, h⟩
      let q := innerLoopF st t.User t.Willing.length t.Willing 0 did
      let l1 := l.set i { t with Willing := q.1 }
      if q.1.length = 0 then
        outerLoopF st fuel (l1.eraseIdx i) i true
      else
        outerLoopF st fuel l1 (i + 1) q.2
    else (l, did)

/-- `cleanTrades`, also reporting whether it wrote the order book back. -/
def cleanTradesW (st : Store) : Store × Bool :=
  let trades := asTrades (st openTradesStr)
  let p := outerLoopF st trades.length trades 0 false
  if p.2 then (putState st openTradesStr (.trades p.1), true) else (st, false)

/-- `cleanTrades` as called from the dispatcher (its error is ignored there;
in this model it never fails). -/
def cleanTrades (st : Store) : Store := (cleanTradesW st).1

/-- `Init`: reset the test variable, the item index and the open trades. -/
def Init (st : Store) (args : List String) : Store × TxRes :=
  match args with
  | [a0] =>
    match strconvAtoi a0 with
    | none => (st, .err "Expecting integer value for asset holding")
    | some v =>
      let st1 := putState st "abc" (.raw (toString v))
      let st2 := putState st1 betIndexStr (.index [])
      let st3 := putState st2 openTradesStr (.trades [])
      (st3, .ok)
  | _ => (st, .err "Incorrect number of arguments. Expecting 1")

/-- The `Invoke` dispatcher.  `delete`, `set_user` and `perform_trade` run
`cleanTrades` afterwards (even when the operation returned an error, since the
Go code ignores the pair until after the call); a panic propagates without
running the post-step. -/
def Invoke (st : Store) (fn : String) (args : List String) (now : Int) :
    Store × TxRes :=
  if fn = "init" then Init st args
  else if fn = "delete" then
    let p := Delete st args
    (cleanTrades p.1, p.2)
  else if fn = "write" then Write st args
  else if fn = "init_bet" then init_bet st args
  else if fn = "set_user" then
    let p := set_user st args
    (cleanTrades p.1, p.2)
  else if fn = "open_trade" then open_trade st args now
  else if fn = "perform_trade" then
    let p := perform_trade st args
    match p.2 with
    | .crash => p
    | r => (cleanTrades p.1, r)
  else if fn = "remove_trade" then remove_trade st args
  else (st, .err "Received unknown function invocation")

/-- The empty ledger. -/
def s0 : Store := fun _ => none

/-- Abbreviation for the reconciler's per-offer test: does `findBet4Trade`
resolve this description for this creator? -/
def okD (st : Store) (u : String) (d : Description) : Bool :=
  foundOk (findBet4Trade st u d.Color d.Size)

/-- Whether `cleanTrades` changes an order: some offer fails to resolve, or
the surviving offer list is empty (so the order itself is dropped). -/
def changedP (st : Store) (t : AnOpenTrade) : Bool :=
  t.Willing.any (fun d => !okD st t.User d) ||
    (t.Willing.filter (okD st t.User)).isEmpty

/-- The stable retain/filter pass the spec describes for the reconciler:
keep each order's resolvable offers; drop orders whose surviving offer list
is empty.  The index-splicing loops are proved equal to this below. -/
def cleanOrders (st : Store) : List AnOpenTrade → List AnOpenTrade
  | [] => []
  | t :: rest =>
    let w := t.Willing.filter (okD st t.User)
    if w.isEmpty then cleanOrders st rest
    else { t with Willing := w } :: cleanOrders st rest

/-- Scenario state for the case-sensitivity counterexample: an order wanting
("Blue", 5) and a closer's bet of color "blue" (as `init_bet` stores it). -/
def c1St : Store := fun k =>
  if k = openTradesStr then some (.trades [⟨"2", 7, ⟨"Blue", 5⟩, [⟨"red", 1⟩]⟩])
  else if k = "X" then some (.bet ⟨"X", "blue", 5, "1"⟩)
  else none

/-- Scenario state with one order and one item that satisfies the closer's
side but gives the opener no candidate. -/
def c4St : Store := fun k =>
  if k = openTradesStr then some (.trades [⟨"9", 5, ⟨"blue", 2⟩, [⟨"red", 1⟩]⟩])
  else if k = betIndexStr then some (.index ["C"])
  else if k = "C" then some (.bet ⟨"C", "blue", 2, "7"⟩)
  else none

/-- Scenario state for the reconciler: order by "u" offering a resolvable
("red", 5) and an unresolvable ("blue", 3). -/
def c3St : Store := fun k =>
  if k = openTradesStr then
    some (.trades [⟨"u", 3, ⟨"x", 1⟩, [⟨"red", 5⟩, ⟨"blue", 3⟩]⟩])
  else if k = betIndexStr then some (.index ["b1"])
  else if k = "b1" then some (.bet ⟨"b1", "red", 5, "u"⟩)
  else none

/-- The surviving order of the `c3St` reconciliation. -/
def c3T : AnOpenTrade := ⟨"u", 3, ⟨"x", 1⟩, [⟨"red", 5⟩]⟩

/-- Step 1 of the §8 scenario with numeric owner tags: create item A. -/
def c2Step1 : Store × TxRes := Invoke s0 "init_bet" ["itemA", "blue", "10", "1"] 0

/-- Step 2: create item B. -/
def c2Step2 : Store × TxRes := Invoke c2Step1.1 "init_bet" ["itemB", "red", "5", "2"] 0

/-- Step 3: bob (tag "2") opens an order wanting ("blue",10), offering
("red",5); the clock returns 1000. -/
def c2Step3 : Store × TxRes :=
  Invoke c2Step2.1 "open_trade" ["2", "blue", "10", "red", "5"] 1000

/-- Step 4: alice (tag "1") executes the swap citing order 1000, item A and
("red",5). -/
def c2Step4 : Store × TxRes :=
  Invoke c2Step3.1 "perform_trade" ["1000", "1", "itemA", "2", "red", "5"] 0

/-! ## List helpers for the index-splicing loops -/

theorem getMid {α : Type} :
    ∀ (a : List α) (t : α) (b : List α) (h : a.length < (a ++ t :: b).length),
      (a ++ t :: b).get ⟨a.length, h⟩ = t
  | [], _, _, _ => rfl
  | _ :: xs, t, b, h => getMid xs t b (by simp)

theorem eraseMid {α : Type} :
    ∀ (a : List α) (t : α) (b : List α), (a ++ t :: b).eraseIdx a.length = a ++ b
  | [], _, _ => rfl
  | x :: xs, t, b => congrArg (x :: ·) (eraseMid xs t b)

theorem setMid {α : Type} :
    ∀ (a : List α) (t : α) (b : List α) (v : α),
      (a ++ t :: b).set a.length v = a ++ v :: b
  | [], _, _, _ => rfl
  | x :: xs, t, b, v => congrArg (x :: ·) (setMid xs t b v)

/-! ## Matching engine -/

/-- Any bet returned by the index scan matches the requested user and color
case-insensitively and the requested size exactly. -/
theorem findLoop_sound :
    ∀ (l : List String) (st : Store) (u c : String) (s : Int) (b : Bet),
      findLoop st u c s l = .ok b →
      lowerStr b.User = lowerStr u ∧ lowerStr b.Color = lowerStr c ∧ b.Size = s
  | [], _, _, _, _, _, h => by simp [findLoop] at h
  | n :: rest, st, u, c, s, b, h => by
    by_cases hc : lowerStr (asBet (st n)).User = lowerStr u ∧
        lowerStr (asBet (st n)).Color = lowerStr c ∧ (asBet (st n)).Size = s
    · rw [findLoop, if_pos hc] at h
      cases h
      exact hc
    · rw [findLoop, if_neg hc] at h
      exact findLoop_sound rest st u c s b h

/-- A bet returned by `findBet4Trade` matches user and color
case-insensitively and size exactly. -/
theorem findBet4Trade_sound (st : Store) (u c : String) (s : Int) (b : Bet)
    (h : findBet4Trade st u c s = .ok b) :
    lowerStr b.User = lowerStr u ∧ lowerStr b.Color = lowerStr c ∧ b.Size = s :=
  findLoop_sound _ st u c s b h

/-- The scan only depends on the store through `asBet`. -/
theorem findLoop_congr (st1 st2 : Store) (hb : ∀ k, asBet (st1 k) = asBet (st2 k)) :
    ∀ (l : List String) (u c : String) (s : Int),
      findLoop st1 u c s l = findLoop st2 u c s l
  | [], _, _, _ => rfl
  | n :: rest, u, c, s => by
    rw [findLoop, findLoop, hb n, findLoop_congr st1 st2 hb rest u c s]

/-- `findBet4Trade` only depends on the store through `asBet` and the index. -/
theorem findBet4Trade_congr (st1 st2 : Store)
    (hb : ∀ k, asBet (st1 k) = asBet (st2 k))
    (hi : asIndex (st1 betIndexStr) = asIndex (st2 betIndexStr))
    (u c : String) (s : Int) :
    findBet4Trade st1 u c s = findBet4Trade st2 u c s := by
  rw [findBet4Trade, findBet4Trade, hi, findLoop_congr st1 st2 hb]

/-! ## Reconciler loop characterizations -/

/-- The splice-and-compensate inner loop is the stable filter: starting at
position `a.length` of `a ++ b` it keeps exactly the resolvable offers of `b`,
and reports whether any offer was dropped. -/
theorem innerLoopF_eq (st : Store) (u : String) :
    ∀ (b a : List Description) (did : Bool),
      innerLoopF st u b.length (a ++ b) a.length did =
        (a ++ b.filter (okD st u), did || b.any (fun d => !okD st u d)) := by
  intro b
  induction b with
  | nil => intro a did; simp [innerLoopF]
  | cons d bs ih =>
    intro a did
    have hlt : a.length < (a ++ d :: bs).length := by simp
    rw [List.length_cons, innerLoopF, dif_pos hlt]
    simp only [getMid a d bs hlt]
    by_cases hok : okD st u d = true
    · rw [if_pos (show foundOk (findBet4Trade st u d.Color d.Size) = true from hok)]
      have harr : a ++ d :: bs = (a ++ [d]) ++ bs := List.append_cons a d bs
      have hlen : a.length + 1 = (a ++ [d]).length := by simp
      rw [harr, hlen, ih (a ++ [d]) did]
      simp [List.filter_cons, hok, List.any_cons]
    · rw [if_neg (show ¬foundOk (findBet4Trade st u d.Color d.Size) = true from hok)]
      rw [eraseMid a d bs, ih a true]
      have hok' : okD st u d = false := by
        cases hq : okD st u d
        · rfl
        · exact absurd hq hok
      simp [List.filter_cons, hok', List.any_cons]

/-- The splice-and-compensate outer loop is the stable retain pass
`cleanOrders`, and its work flag records whether any offer or order was
dropped. -/
theorem outerLoopF_eq (st : Store) :
    ∀ (b a : List AnOpenTrade) (did : Bool),
      outerLoopF st b.length (a ++ b) a.length did =
        (a ++ cleanOrders st b, did || b.any (changedP st)) := by
  intro b
  induction b with
  | nil => intro a did; simp [outerLoopF, cleanOrders]
  | cons t bs ih =>
    intro a did
    have hlt : a.length < (a ++ t :: bs).length := by simp
    rw [List.length_cons, outerLoopF, dif_pos hlt]
    simp only [getMid a t bs hlt]
    have hinner := innerLoopF_eq st t.User t.Willing [] did
    simp only [List.nil_append, List.length_nil] at hinner
    rw [hinner]
    simp only [setMid a t bs]
    by_cases hemp : (t.Willing.filter (okD st t.User)).length = 0
    · rw [if_pos hemp]
      have hnil : t.Willing.filter (okD st t.User) = [] := List.length_eq_zero.mp hemp
      rw [eraseMid a _ bs, ih a true]
      have hch : changedP st t = true := by
        simp [changedP, hnil]
      simp [cleanOrders, hnil, hch, List.any_cons]
    · rw [if_neg hemp]
      have hne : ¬(t.Willing.filter (okD st t.User)).isEmpty = true := by
        simp only [List.isEmpty_iff_length_eq_zero]
        exact hemp
      have harr : a ++ { t with Willing := t.Willing.filter (okD st t.User) } :: bs =
          (a ++ [{ t with Willing := t.Willing.filter (okD st t.User) }]) ++ bs :=
        List.append_cons a _ bs
      have hlen : a.length + 1 =
          (a ++ [{ t with Willing := t.Willing.filter (okD st t.User) }]).length := by simp
      rw [harr, hlen, ih _ _]
      have hch : changedP st t = t.Willing.any (fun d => !okD st t.User d) := by
        simp only [changedP]
        cases hq : (t.Willing.filter (okD st t.User)).isEmpty
        · simp
        · exact absurd hq hne
      simp [cleanOrders, hne, hch, List.any_cons, Bool.or_assoc]

/-- `cleanTradesW` in terms of the stable retain pass. -/
theorem cleanTradesW_eq (st : Store) :
    cleanTradesW st =
      if (asTrades (st openTradesStr)).any (changedP st) then
        (putState st openTradesStr
          (.trades (cleanOrders st (asTrades (st openTradesStr)))), true)
      else (st, false) := by
  have h := outerLoopF_eq st (asTrades (st openTradesStr)) [] false
  simp only [List.nil_append, List.length_nil] at h
  rw [cleanTradesW]
  rw [h]
  simp only [Bool.false_or]

/-! ## Properties of the stable retain pass -/

theorem cleanOrders_length_le (st : Store) :
    ∀ l, (cleanOrders st l).length ≤ l.length
  | [] => Nat.le_refl 0
  | t :: rest => by
    rw [cleanOrders]
    by_cases hemp : (t.Willing.filter (okD st t.User)).isEmpty = true
    · simp only [if_pos hemp]
      exact Nat.le_succ_of_le (cleanOrders_length_le st rest)
    · simp only [if_neg hemp, List.length_cons]
      exact Nat.succ_le_succ (cleanOrders_length_le st rest)

/-- Every order surviving the retain pass has a non-empty offer list all of
whose offers resolve. -/
theorem cleanOrders_mem (st : Store) :
    ∀ l t, t ∈ cleanOrders st l →
      t.Willing ≠ [] ∧ ∀ d ∈ t.Willing, okD st t.User d = true
  | [], t, h => by simp [cleanOrders] at h
  | t0 :: rest, t, h => by
    rw [cleanOrders] at h
    by_cases hemp : (t0.Willing.filter (okD st t0.User)).isEmpty = true
    · rw [if_pos hemp] at h
      exact cleanOrders_mem st rest t h
    · rw [if_neg hemp] at h
      rcases List.mem_cons.mp h with hh | hh
      · subst hh
        refine ⟨by simpa using hemp, ?_⟩
        intro d hd
        exact (List.mem_filter.mp hd).2
      · exact cleanOrders_mem st rest t hh

/-- If no order is flagged as changed, the retain pass is the identity. -/
theorem cleanOrders_of_no_change (st : Store) :
    ∀ l, l.any (changedP st) = false → cleanOrders st l = l
  | [], _ => rfl
  | t :: rest, h => by
    rw [List.any_cons, Bool.or_eq_false_iff] at h
    have hch := h.1
    rw [changedP, Bool.or_eq_false_iff] at hch
    have hfil : t.Willing.filter (okD st t.User) = t.Willing := by
      rw [List.filter_eq_self]
      intro d hd
      have := (List.any_eq_false.mp hch.1) d hd
      simpa using this
    have hne : ¬((t.Willing.filter (okD st t.User)).isEmpty = true) := by
      rw [hch.2]
      simp
    rw [cleanOrders, if_neg hne, cleanOrders_of_no_change st rest h.2, hfil]

/-- If some order is flagged as changed, the retain pass produces a
different list. -/
theorem cleanOrders_ne_of_change (st : Store) :
    ∀ l, l.any (changedP st) = true → cleanOrders st l ≠ l
  | [], h => by simp at h
  | t :: rest, h => by
    rw [cleanOrders]
    by_cases hemp : (t.Willing.filter (okD st t.User)).isEmpty = true
    · rw [if_pos hemp]
      intro heq
      have hlen := congrArg List.length heq
      simp only [List.length_cons] at hlen
      have := cleanOrders_length_le st rest
      omega
    · rw [if_neg hemp]
      by_cases hch : changedP st t = true
      · have hany : t.Willing.any (fun d => !okD st t.User d) = true := by
          rw [changedP, Bool.or_eq_true] at hch
          rcases hch with hq | hq
          · exact hq
          · exact absurd hq hemp
        have hfil : t.Willing.filter (okD st t.User) ≠ t.Willing := by
          intro heq
          rcases List.any_eq_true.mp hany with ⟨d, hd, hbad⟩
          have := (List.filter_eq_self.mp heq) d hd
          simp [this] at hbad
        intro heq
        have hhead := (List.cons.injEq _ _ _ _ ▸ heq).1
        exact hfil (congrArg AnOpenTrade.Willing hhead)
      · have hrest : rest.any (changedP st) = true := by
          rw [List.any_cons, Bool.or_eq_true] at h
          rcases h with hq | hq
          · exact absurd hq hch
          · exact hq
        have hfil : t.Willing.filter (okD st t.User) = t.Willing := by
          rw [List.filter_eq_self]
          intro d hd
          have : changedP st t = false := by
            cases hq : changedP st t
            · rfl
            · exact absurd hq hch
          rw [changedP, Bool.or_eq_false_iff] at this
          have := (List.any_eq_false.mp this.1) d hd
          simpa using this
        intro heq
        have htail := (List.cons.injEq _ _ _ _ ▸ heq).2
        exact cleanOrders_ne_of_change st rest hrest htail

/-- The retain pass only depends on the store through the per-offer test. -/
theorem cleanOrders_congr (st1 st2 : Store) (hok : okD st1 = okD st2) :
    ∀ l, cleanOrders st1 l = cleanOrders st2 l
  | [] => rfl
  | t :: rest => by
    rw [cleanOrders, cleanOrders, hok, cleanOrders_congr st1 st2 hok rest]

/-! ## perform_trade loop lemmas -/

/-- If every trade with the requested timestamp passes the closer check but
offers no opener candidate, the matching loop finishes normally and touches
nothing. -/
theorem performLoop_unchanged (cu cn oc : String) (size ts : Int) (st : Store) :
    ∀ (b a : List AnOpenTrade),
      (∀ t ∈ b, t.Timestamp = ts →
        (asBet (st cn)).Color = t.Want.Color ∧ (asBet (st cn)).Size = t.Want.Size ∧
          foundOk (findBet4Trade st t.User oc size) = false) →
      performLoop cu cn oc size ts b.length a.length st (a ++ b) = (st, .ok) := by
  intro b
  induction b with
  | nil => intro a _; simp [performLoop]
  | cons t bs ih =>
    intro a hb
    have hlt : a.length < (a ++ t :: bs).length := by simp
    rw [List.length_cons, performLoop, dif_pos hlt]
    simp only [getMid a t bs hlt]
    by_cases hts : t.Timestamp = ts
    · rw [if_pos hts]
      have hh := hb t (List.mem_cons_self t bs) hts
      rw [if_neg (by push_neg; exact ⟨hh.1, hh.2.1⟩)]
      cases hfb : findBet4Trade st t.User oc size with
      | ok bet =>
        rw [hfb] at hh
        simp [foundOk] at hh
      | error e =>
        rw [List.append_cons a t bs]
        have hlen : a.length + 1 = (a ++ [t]).length := by simp
        rw [hlen]
        exact ih (a ++ [t]) (fun u hu hts' => hb u (List.mem_cons_of_mem t hu) hts')
    · rw [if_neg hts]
      rw [List.append_cons a t bs]
      have hlen : a.length + 1 = (a ++ [t]).length := by simp
      rw [hlen]
      exact ih (a ++ [t]) (fun u hu hts' => hb u (List.mem_cons_of_mem t hu) hts')

/-- If no trade in the current list carries the requested timestamp, the
matching loop can finish normally or crash but never returns an error. -/
theorem performLoop_no_err (cu cn oc : String) (size ts : Int) (e : String) :
    ∀ (fuel i : Nat) (st : Store) (trades : List AnOpenTrade),
      (∀ t ∈ trades, t.Timestamp ≠ ts) →
      (performLoop cu cn oc size ts fuel i st trades).2 ≠ .err e := by
  intro fuel
  induction fuel with
  | zero => intro i st trades _; simp [performLoop]
  | succ n ih =>
    intro i st trades hts
    rw [performLoop]
    by_cases h : i < trades.length
    · rw [dif_pos h]
      rw [if_neg (hts (trades.get ⟨i, h⟩) (trades.get_mem i h))]
      exact ih (i + 1) st trades hts
    · rw [dif_neg h]
      simp

/-- Under distinct timestamps, whenever the matching loop returns an error
it has issued no write. -/
theorem performLoop_err_eq (cu cn oc : String) (size ts : Int) (e : String)
    (st : Store) :
    ∀ (b a : List AnOpenTrade),
      (a ++ b).Pairwise (fun x y => x.Timestamp ≠ y.Timestamp) →
      (performLoop cu cn oc size ts b.length a.length st (a ++ b)).2 = .err e →
      (performLoop cu cn oc size ts b.length a.length st (a ++ b)).1 = st := by
  intro b
  induction b with
  | nil => intro a _ h; simp [performLoop] at h
  | cons t bs ih =>
    intro a hpw h
    have hlt : a.length < (a ++ t :: bs).length := by simp
    rw [List.length_cons, performLoop, dif_pos hlt] at h ⊢
    simp only [getMid a t bs hlt] at h ⊢
    by_cases hts : t.Timestamp = ts
    · rw [if_pos hts] at h ⊢
      by_cases hreq : ¬((asBet (st cn)).Color = t.Want.Color) ∨
          ¬((asBet (st cn)).Size = t.Want.Size)
      · rw [if_pos hreq]
      · rw [if_neg hreq] at h ⊢
        cases hfb : findBet4Trade st t.User oc size with
        | ok bet =>
          rw [hfb, eraseMid a t bs] at h
          have h2 : (performLoop cu cn oc size ts bs.length (a.length + 1)
              (putState (set_user_core (set_user_core st cn t.User) bet.Name cu)
                openTradesStr (Val.trades (a ++ bs))) (a ++ bs)).2 = .err e := h
          exfalso
          refine performLoop_no_err cu cn oc size ts e bs.length (a.length + 1) _
            (a ++ bs) ?_ h2
          intro u hu
          rcases List.mem_append.mp hu with hua | hub
          · have := List.pairwise_append.mp hpw
            have hru := this.2.2 u hua t (List.mem_cons_self t bs)
            rw [← hts]
            exact hru
          · have := (List.pairwise_append.mp hpw).2.1
            have hru := (List.pairwise_cons.mp this).1 u hub
            rw [← hts]
            exact fun hq => hru hq.symm
        | error e2 =>
          rw [hfb] at h
          have h2 : (performLoop cu cn oc size ts bs.length (a.length + 1)
              st (a ++ t :: bs)).2 = .err e := h
          show (performLoop cu cn oc size ts bs.length (a.length + 1)
              st (a ++ t :: bs)).1 = st
          rw [List.append_cons a t bs] at h2 hpw ⊢
          have hlen : a.length + 1 = (a ++ [t]).length := by simp
          rw [hlen] at h2 ⊢
          exact ih (a ++ [t]) hpw h2
    · rw [if_neg hts] at h ⊢
      rw [List.append_cons a t bs] at h hpw ⊢
      have hlen : a.length + 1 = (a ++ [t]).length := by simp
      rw [hlen] at h ⊢
      exact ih (a ++ [t]) hpw h

/-! ## open_trade loop lemma -/

/-- When the willing-list loop rejects a non-numeric quantity, the only keys
it may have written are the debug keys. -/
theorem willingLoop_err :
    ∀ (l : List String) (st : Store) (acc : AnOpenTrade) (e : String) (k : String),
      k ≠ "_debug1" → k ≠ "_debug2" →
      (willingLoop st acc l).2 = .err e → (willingLoop st acc l).1 k = st k
  | [], st, acc, e, k, _, _, h => by simp [willingLoop] at h
  | [x], st, acc, e, k, _, _, h => by simp [willingLoop] at h
  | c :: q :: rest, st, acc, e, k, h1, h2, h => by
    rw [willingLoop] at h ⊢
    cases hq : strconvAtoi q with
    | none => rfl
    | some ws =>
      rw [hq] at h
      have hh : (willingLoop (putState st "_debug2" (.descr ⟨c, ws⟩))
          { acc with Willing := acc.Willing ++ [⟨c, ws⟩] } rest).2 = .err e := h
      have hrec := willingLoop_err rest (putState st "_debug2" (.descr ⟨c, ws⟩))
        { acc with Willing := acc.Willing ++ [⟨c, ws⟩] } e k h1 h2 hh
      show (willingLoop (putState st "_debug2" (.descr ⟨c, ws⟩))
        { acc with Willing := acc.Willing ++ [⟨c, ws⟩] } rest).1 k = st k
      rw [hrec, putState, if_neg h2]

/-! ## Store lookup helpers -/

theorem putState_same (st : Store) (k : String) (v : Val) :
    putState st k v k = some v := by
  simp [putState]

theorem putState_other (st : Store) (k : String) (v : Val) (q : String)
    (h : q ≠ k) : putState st k v q = st q := by
  simp [putState, h]

/-! ## Per-operation error isolation -/

theorem init_bet_err (st : Store) (args : List String) (e : String) :
    (init_bet st args).2 = .err e → (init_bet st args).1 = st := by
  unfold init_bet
  dsimp only
  repeat' split
  all_goals intro h
  all_goals first | rfl | cases h

theorem set_user_err (st : Store) (args : List String) (e : String) :
    (set_user st args).2 = .err e → (set_user st args).1 = st := by
  unfold set_user
  repeat' split
  all_goals intro h
  all_goals first | rfl | cases h

theorem Write_err (st : Store) (args : List String) (e : String) :
    (Write st args).2 = .err e → (Write st args).1 = st := by
  unfold Write
  repeat' split
  all_goals intro h
  all_goals first | rfl | cases h

theorem Delete_err (st : Store) (args : List String) (e : String) :
    (Delete st args).2 = .err e → (Delete st args).1 = st := by
  unfold Delete
  repeat' split
  all_goals intro h
  all_goals first | rfl | cases h

theorem remove_trade_err (st : Store) (args : List String) (e : String) :
    (remove_trade st args).2 = .err e → (remove_trade st args).1 = st := by
  unfold remove_trade
  dsimp only
  repeat' split
  all_goals intro h
  all_goals first | rfl | cases h

theorem Init_err (st : Store) (args : List String) (e : String) :
    (Init st args).2 = .err e → (Init st args).1 = st := by
  unfold Init
  repeat' split
  all_goals intro h
  all_goals first | rfl | cases h

theorem perform_trade_err (st : Store) (args : List String) (e : String)
    (hpw : (asTrades (st openTradesStr)).Pairwise
      (fun x y => x.Timestamp ≠ y.Timestamp)) :
    (perform_trade st args).2 = .err e → (perform_trade st args).1 = st := by
  unfold perform_trade
  split
  case _ a0 a1 a2 a3 a4 a5 rest =>
    cases h0 : strconvAtoi a0 with
    | none => intro _; rfl
    | some ts =>
      cases h5 : strconvAtoi a5 with
      | none => intro _; rfl
      | some sz =>
        intro h
        exact performLoop_err_eq a1 a2 a4 sz ts e st
          (asTrades (st openTradesStr)) [] hpw h
  case _ => intro _; rfl

theorem open_trade_err (st : Store) (args : List String) (now : Int) (e : String) :
    (open_trade st args now).2 = .err e →
    ∀ k, k ≠ "_debug1" → k ≠ "_debug2" → (open_trade st args now).1 k = st k := by
  unfold open_trade
  split
  · intro _ k _ _; rfl
  · split
    · intro _ k _ _; rfl
    · split
      · next a0 a1 a2 rest hlt hpar =>
        cases hq : strconvAtoi a2 with
        | none => intro _ k _ _; rfl
        | some size1 =>
          intro h k h1 h2
          have hh : (willingLoop (putState st "_debug1"
              (.trade ⟨a0, now, ⟨a1, size1⟩, []⟩))
              ⟨a0, now, ⟨a1, size1⟩, []⟩ rest).2 = .err e := h
          have hrec := willingLoop_err rest (putState st "_debug1"
              (.trade ⟨a0, now, ⟨a1, size1⟩, []⟩))
              ⟨a0, now, ⟨a1, size1⟩, []⟩ e k h1 h2 hh
          show (willingLoop (putState st "_debug1" (.trade ⟨a0, now, ⟨a1, size1⟩, []⟩))
              ⟨a0, now, ⟨a1, size1⟩, []⟩ rest).1 k = st k
          rw [hrec, putState, if_neg h1]
      · next => intro h; cases h

/-! ## Claim theorems -/

/-- C5 (amended): for every state-mutating operation, an error return means
the operation issued no store write — except `open_trade`, whose rejection of
a non-numeric offered quantity can leave writes on the debug keys `_debug1`
and `_debug2` (and only there).  The `perform_trade` conjunct assumes the
stated order-book invariant of distinct order ids. -/
theorem C5_write_isolation (st : Store) (args : List String) (now : Int)
    (e : String) :
    ((init_bet st args).2 = .err e → (init_bet st args).1 = st) ∧
    ((set_user st args).2 = .err e → (set_user st args).1 = st) ∧
    ((Write st args).2 = .err e → (Write st args).1 = st) ∧
    ((Delete st args).2 = .err e → (Delete st args).1 = st) ∧
    ((remove_trade st args).2 = .err e → (remove_trade st args).1 = st) ∧
    ((Init st args).2 = .err e → (Init st args).1 = st) ∧
    ((asTrades (st openTradesStr)).Pairwise
        (fun x y => x.Timestamp ≠ y.Timestamp) →
      (perform_trade st args).2 = .err e → (perform_trade st args).1 = st) ∧
    ((open_trade st args now).2 = .err e →
      ∀ k, k ≠ "_debug1" → k ≠ "_debug2" → (open_trade st args now).1 k = st k) :=
  ⟨init_bet_err st args e, set_user_err st args e, Write_err st args e,
    Delete_err st args e, remove_trade_err st args e, Init_err st args e,
    fun hpw => perform_trade_err st args e hpw, open_trade_err st args now e⟩

/-- C5 witness: a bad-arity `init_bet` call errors and, by the theorem,
leaves the store untouched. -/
theorem C5_witness : (init_bet s0 ["only"]).1 = s0 :=
  (C5_write_isolation s0 ["only"] 0
    "Incorrect number of arguments. Expecting 4").1 rfl

/-- C5 counterexample: `open_trade` rejecting the non-numeric offered
quantity "x" has already written the `_debug1` record, so the claim that no
write precedes the error is false. -/
theorem C5_counterexample :
    (open_trade s0 ["bob", "blue", "16", "red", "x"] 99).2 =
      .err "is not a numeric string x" ∧
    (open_trade s0 ["bob", "blue", "16", "red", "x"] 99).1 "_debug1" ≠
      s0 "_debug1" := by
  constructor
  · decide
  · decide

/-- C8: `set_user` never fails its load, and on a name with no stored record
it writes a record with empty name, empty kind, zero quantity and the
requested owner; with at least two arguments it always succeeds. -/
theorem C8_setOwner (st : Store) (a0 a1 : String) (rest : List String) :
    (set_user st (a0 :: a1 :: rest)).2 = .ok ∧
    (st a0 = none →
      (set_user st (a0 :: a1 :: rest)).1 a0 = some (.bet ⟨"", "", 0, a1⟩)) := by
  refine ⟨rfl, fun h => ?_⟩
  show set_user_core st a0 a1 a0 = some (.bet ⟨"", "", 0, a1⟩)
  rw [set_user_core]
  show putState st a0 (.bet { asBet (st a0) with User := a1 }) a0 = _
  rw [h, putState]
  simp [asBet]

/-- C8 witness: updating the owner of a never-created name writes the
empty-record-with-owner shape. -/
theorem C8_witness :
    (set_user s0 ["ghost", "bob"]).2 = .ok ∧
    (set_user s0 ["ghost", "bob"]).1 "ghost" = some (.bet ⟨"", "", 0, "bob"⟩) := by
  have h := C8_setOwner s0 "ghost" "bob" []
  exact ⟨h.1, h.2 rfl⟩

/-- C9: the dispatcher accepts `write`, which stores the value verbatim under
any requested key — including the reserved item-index and order-book keys —
with no validation, no index maintenance and no reconciliation. -/
theorem C9_raw_write (st : Store) (name value : String) (now : Int) :
    Invoke st "write" [name, value] now = (putState st name (.raw value), .ok) ∧
    Invoke st "write" [betIndexStr, value] now =
      (putState st betIndexStr (.raw value), .ok) ∧
    Invoke st "write" [openTradesStr, value] now =
      (putState st openTradesStr (.raw value), .ok) :=
  ⟨rfl, rfl, rfl⟩

/-- C2 counterexample: the scenario's first step as written — creating item A
with owner "alice" — is rejected by `init_bet`, which requires a numeric
owner tag, so "every step succeeds" is false as stated. -/
theorem C2_counterexample :
    (Invoke s0 "init_bet" ["itemA", "blue", "10", "alice"] 0).2 =
      .err "4th argument must be a numeric string, 1 or 2" := by decide

/-- C2 (amended): the §8 scenario with the owner identifiers given as the
numeric tags `init_bet` requires ("1" for alice, "2" for bob): every step
succeeds, afterwards A's owner is bob's tag "2", B's owner is alice's tag
"1", and the order book is empty. -/
theorem C2_swap_scenario :
    c2Step1.2 = .ok ∧ c2Step2.2 = .ok ∧ c2Step3.2 = .ok ∧ c2Step4.2 = .ok ∧
    asBet (c2Step4.1 "itemA") = ⟨"itemA", "blue", 10, "2"⟩ ∧
    asBet (c2Step4.1 "itemB") = ⟨"itemB", "red", 5, "1"⟩ ∧
    asTrades (c2Step4.1 openTradesStr) = [] := by decide

/-- C10: for well-formed non-empty arguments, `init_bet` rejects every
non-numeric owner with an argument-format error before issuing any write (an
empty owner is likewise rejected, earlier and unwritten), and on success the
stored owner is the decimal representation of the parsed integer. -/
theorem C10_owner_numeric (st : Store) (n k q o : String)
    (hn : n ≠ "") (hk : k ≠ "") (hq : q ≠ "") (hnb : n ≠ betIndexStr) :
    (o ≠ "" → strconvAtoi o = none →
      init_bet st [n, k, q, o] =
        (st, .err "4th argument must be a numeric string, 1 or 2")) ∧
    (o = "" → init_bet st [n, k, q, o] =
      (st, .err "4th argument must be a non-empty string")) ∧
    (∀ u sz, strconvAtoi o = some u → strconvAtoi q = some sz →
      (asBet (st n)).Name ≠ n →
      (init_bet st [n, k, q, o]).2 = .ok ∧
      (init_bet st [n, k, q, o]).1 n =
        some (.bet ⟨n, lowerStr k, sz, toString u⟩)) := by
  refine ⟨fun ho hpo => ?_, fun ho => ?_, fun u sz hpu hpq hex => ?_⟩
  · simp only [init_bet, if_neg hn, if_neg hk, if_neg hq, if_neg ho, hpo]
  · simp only [init_bet, if_neg hn, if_neg hk, if_neg hq, if_pos ho]
  · have ho : o ≠ "" := by
      intro he
      rw [he] at hpu
      simp [strconvAtoi] at hpu
    constructor
    · simp only [init_bet, if_neg hn, if_neg hk, if_neg hq, if_neg ho, hpu, hpq,
        if_neg hex]
    · simp only [init_bet, if_neg hn, if_neg hk, if_neg hq, if_neg ho, hpu, hpq,
        if_neg hex]
      simp [putState, hnb]

/-- C10 witness: creating with the non-numeric owner "zz" is rejected with
the format error and no write; creating with owner "2" stores owner "2". -/
theorem C10_witness :
    init_bet s0 ["m1", "blue", "3", "zz"] =
      (s0, .err "4th argument must be a numeric string, 1 or 2") ∧
    (init_bet s0 ["m1", "blue", "3", "2"]).1 "m1" =
      some (.bet ⟨"m1", lowerStr "blue", 3, toString (2 : Int)⟩) := by
  refine ⟨(C10_owner_numeric s0 "m1" "blue" "3" "zz" (by decide) (by decide)
    (by decide) (by decide)).1 (by decide) (by decide), ?_⟩
  exact ((C10_owner_numeric s0 "m1" "blue" "3" "2" (by decide) (by decide)
    (by decide) (by decide)).2.2 2 3 (by decide) (by decide) (by decide)).2

/-- C7: with well-formed arguments, `init_bet` fails with the already-exists
error exactly when the stored record under the name parses to that same name;
on success the record is persisted under its name (hence readable) and, when
the name was not yet in the index, it afterwards appears in the index exactly
once. -/
theorem C7_create_unique (st : Store) (n k q o : String) (u sz : Int)
    (hn : n ≠ "") (hk : k ≠ "") (hq : q ≠ "") (ho : o ≠ "")
    (hpu : strconvAtoi o = some u) (hpq : strconvAtoi q = some sz)
    (hnb : n ≠ betIndexStr) :
    ((init_bet st [n, k, q, o]).2 = .err "This bet arleady exists" ↔
      (asBet (st n)).Name = n) ∧
    ((asBet (st n)).Name ≠ n →
      (init_bet st [n, k, q, o]).2 = .ok ∧
      (init_bet st [n, k, q, o]).1 n =
        some (.bet ⟨n, lowerStr k, sz, toString u⟩) ∧
      (n ∉ asIndex (st betIndexStr) →
        (asIndex ((init_bet st [n, k, q, o]).1 betIndexStr)).count n = 1)) := by
  have hbn : betIndexStr ≠ n := Ne.symm hnb
  by_cases hex : (asBet (st n)).Name = n
  · refine ⟨?_, fun hne => absurd hex hne⟩
    simp only [init_bet, if_neg hn, if_neg hk, if_neg hq, if_neg ho, hpu, hpq,
      if_pos hex]
    simp [hex]
  · refine ⟨?_, fun _ => ⟨?_, ?_, fun hmem => ?_⟩⟩
    · simp only [init_bet, if_neg hn, if_neg hk, if_neg hq, if_neg ho, hpu, hpq,
        if_neg hex]
      constructor
      · intro hcontra; cases hcontra
      · intro hx; exact absurd hx hex
    · simp only [init_bet, if_neg hn, if_neg hk, if_neg hq, if_neg ho, hpu, hpq,
        if_neg hex]
    · simp only [init_bet, if_neg hn, if_neg hk, if_neg hq, if_neg ho, hpu, hpq,
        if_neg hex]
      simp [putState, hnb]
    · simp only [init_bet, if_neg hn, if_neg hk, if_neg hq, if_neg ho, hpu, hpq,
        if_neg hex]
      rw [putState_same, putState_other st n _ betIndexStr hbn]
      show (asIndex (st betIndexStr) ++ [n]).count n = 1
      rw [List.count_append, List.count_eq_zero.mpr hmem]
      simp

/-- C7 witness: creating a fresh item succeeds, stores the record, and puts
the name in the index exactly once; re-creating it then fails. -/
theorem C7_witness :
    ((init_bet s0 ["w1", "Red", "4", "1"]).2 = .ok ∧
      (init_bet s0 ["w1", "Red", "4", "1"]).1 "w1" =
        some (.bet ⟨"w1", lowerStr "Red", 4, toString (1 : Int)⟩)) ∧
    ((init_bet (init_bet s0 ["w1", "Red", "4", "1"]).1
        ["w1", "Red", "4", "1"]).2 = .err "This bet arleady exists") := by
  have h1 := C7_create_unique s0 "w1" "Red" "4" "1" 1 4 (by decide) (by decide)
    (by decide) (by decide) (by decide) (by decide) (by decide)
  have h2 := h1.2 (by decide)
  refine ⟨⟨h2.1, h2.2.1⟩, ?_⟩
  have h3 := C7_create_unique (init_bet s0 ["w1", "Red", "4", "1"]).1
    "w1" "Red" "4" "1" 1 4 (by decide) (by decide) (by decide) (by decide)
    (by decide) (by decide) (by decide)
  exact h3.1.mpr (by decide)

/-- C4: for well-formed arguments, whenever every order carrying the cited id
(in particular: none at all, or one whose wanted description the closer's
item satisfies but for which `findBet4Trade` locates no candidate owned by
the creator) offers no completed match, `perform_trade` returns success and
leaves the entire state — items, index and order book — unchanged, so the
order remains in the book. -/
theorem C4_swap_silent (st : Store) (a0 a1 a2 a3 a4 a5 : String)
    (rest : List String) (ts sz : Int)
    (h0 : strconvAtoi a0 = some ts) (h5 : strconvAtoi a5 = some sz)
    (hb : ∀ t ∈ asTrades (st openTradesStr), t.Timestamp = ts →
      (asBet (st a2)).Color = t.Want.Color ∧ (asBet (st a2)).Size = t.Want.Size ∧
        foundOk (findBet4Trade st t.User a4 sz) = false) :
    perform_trade st (a0 :: a1 :: a2 :: a3 :: a4 :: a5 :: rest) = (st, .ok) := by
  have h := performLoop_unchanged a1 a2 a4 sz ts st (asTrades (st openTradesStr))
    [] hb
  simp only [List.nil_append, List.length_nil] at h
  simp only [perform_trade, h0, h5]
  exact h

/-- C4 witness: a book with one order whose wanted description the closer's
item "C" satisfies, but whose creator "9" owns no ("red",1) item: the swap
returns success with the state — and the order — untouched. -/
theorem C4_witness :
    perform_trade c4St ["5", "7", "C", "9", "red", "1"] = (c4St, .ok) :=
  C4_swap_silent c4St "5" "7" "C" "9" "red" "1" [] 5 1 (by decide) (by decide)
    (by decide)

/-- C1 counterexample: an order wanting ("Blue", 5) and a closer's item of
color "blue" (the case `init_bet` stores) differ only in case, so under the
claimed case-insensitive comparison the verification would pass; the code
compares the kind exactly and rejects the swap. -/
theorem C1_counterexample :
    (perform_trade c1St ["7", "u1", "X", "u2", "red", "1"]).2 =
      .err "bet in input does not meet trade requriements" ∧
    lowerStr "blue" = lowerStr "Blue" := by
  constructor
  · decide
  · decide

/-- C1 (amended): `findBet4Trade` matches owner and kind case-insensitively
and quantity exactly, but `perform_trade`'s verification of the closer's item
against the order's wanted description compares the kind by exact
(case-sensitive) string equality and the quantity exactly, and does not
compare owners at all: with a single cited order it errors exactly when the
exact comparison fails. -/
theorem C1_matching_rules :
    (∀ (st : Store) (u c : String) (s : Int) (b : Bet),
      findBet4Trade st u c s = .ok b →
      lowerStr b.User = lowerStr u ∧ lowerStr b.Color = lowerStr c ∧
        b.Size = s) ∧
    (∀ (st : Store) (a0 a1 a2 a3 a4 a5 : String) (rest : List String)
      (ts sz : Int) (t : AnOpenTrade),
      strconvAtoi a0 = some ts → strconvAtoi a5 = some sz →
      asTrades (st openTradesStr) = [t] → t.Timestamp = ts →
      (((asBet (st a2)).Color ≠ t.Want.Color ∨ (asBet (st a2)).Size ≠ t.Want.Size) →
        (perform_trade st (a0 :: a1 :: a2 :: a3 :: a4 :: a5 :: rest)).2 =
          .err "bet in input does not meet trade requriements") ∧
      ((asBet (st a2)).Color = t.Want.Color → (asBet (st a2)).Size = t.Want.Size →
        (perform_trade st (a0 :: a1 :: a2 :: a3 :: a4 :: a5 :: rest)).2 = .ok)) := by
  constructor
  · intro st u c s b h
    exact findBet4Trade_sound st u c s b h
  · intro st a0 a1 a2 a3 a4 a5 rest ts sz t h0 h5 hbook hts
    simp only [perform_trade, h0, h5, hbook, List.length_cons, List.length_nil]
    constructor
    · intro hmis
      rw [performLoop, dif_pos (by simp)]
      simp only [List.get]
      rw [if_pos hts, if_pos hmis]
    · intro hc hs
      rw [performLoop, dif_pos (by simp)]
      simp only [List.get]
      rw [if_pos hts, if_neg (by push_neg; exact ⟨hc, hs⟩)]
      cases hfb : findBet4Trade st t.User a4 sz with
      | ok bet => rfl
      | error e2 => rfl

/-- C1 witness: `findBet4Trade` on a store whose only item is owned by "7"
with color "blue" finds it for the differently-cased query ("7", "BLUE"),
and the returned bet matches case-insensitively with exact size. -/
theorem C1_witness :
    lowerStr "7" = lowerStr "7" ∧ lowerStr "blue" = lowerStr "BLUE" ∧
      (2 : Int) = 2 :=
  C1_matching_rules.1 c4St "7" "BLUE" 2 ⟨"C", "blue", 2, "7"⟩ rfl

/-- A non-empty parse of the trades record pins the stored value. -/
theorem asTrades_eq_store (v : Option Val) (h : asTrades v ≠ []) :
    v = some (.trades (asTrades v)) := by
  cases v with
  | none => simp [asTrades] at h
  | some w => cases w <;> simp [asTrades] at h ⊢

/-- C3: after `cleanTrades`, every order remaining in the book has a
non-empty offer list, and every remaining offer resolves via `findBet4Trade`
for the order's creator against the unchanged inventory — the in-place
splice-while-iterating removal skips and duplicates nothing. -/
theorem C3_reconcile (st : Store) (t : AnOpenTrade)
    (hmem : t ∈ asTrades ((cleanTrades st) openTradesStr)) :
    t.Willing ≠ [] ∧ ∀ d ∈ t.Willing,
      foundOk (findBet4Trade st t.User d.Color d.Size) = true := by
  by_cases hany : (asTrades (st openTradesStr)).any (changedP st) = true
  · rw [cleanTrades, cleanTradesW_eq, if_pos hany] at hmem
    have hmem' : t ∈ cleanOrders st (asTrades (st openTradesStr)) := hmem
    have h := cleanOrders_mem st (asTrades (st openTradesStr)) t hmem'
    exact ⟨h.1, fun d hd => h.2 d hd⟩
  · rw [cleanTrades, cleanTradesW_eq, if_neg hany] at hmem
    have hany' : (asTrades (st openTradesStr)).any (changedP st) = false := by
      revert hany
      cases (asTrades (st openTradesStr)).any (changedP st) <;> simp
    have hch := (List.any_eq_false.mp hany') t hmem
    rw [changedP, Bool.not_eq_true, Bool.or_eq_false_iff] at hch
    constructor
    · intro hnil
      rw [hnil] at hch
      simp at hch
    · intro d hd
      have := (List.any_eq_false.mp hch.1) d hd
      simpa [okD] using this

/-- C3 witness: in the `c3St` scenario the surviving order keeps exactly its
resolvable offer ("red",5). -/
theorem C3_witness :
    c3T.Willing ≠ [] ∧ foundOk (findBet4Trade c3St c3T.User "red" 5) = true := by
  have h := C3_reconcile c3St c3T (by decide)
  exact ⟨h.1, h.2 ⟨"red", 5⟩ (by decide)⟩

/-- C6: `cleanTrades` writes the order book back exactly when the pass
removed at least one offer or order (the work flag tracks a real change, and
only a raised flag produces a write), and it is idempotent: a second
consecutive call with no intervening inventory change removes nothing and
performs no write. -/
theorem C6_reconcile_idempotent (st : Store) :
    ((cleanTradesW st).2 = true ↔
      cleanOrders st (asTrades (st openTradesStr)) ≠
        asTrades (st openTradesStr)) ∧
    ((cleanTradesW st).2 = false → (cleanTradesW st).1 = st) ∧
    ((cleanTradesW st).2 = true → (cleanTradesW st).1 ≠ st) ∧
    cleanTradesW ((cleanTradesW st).1) = ((cleanTradesW st).1, false) := by
  by_cases hany : (asTrades (st openTradesStr)).any (changedP st) = true
  · have hLne : asTrades (st openTradesStr) ≠ [] := by
      intro h
      rw [h] at hany
      simp at hany
    have hstore : st openTradesStr =
        some (.trades (asTrades (st openTradesStr))) :=
      asTrades_eq_store (st openTradesStr) hLne
    have hcw : cleanTradesW st = (putState st openTradesStr
        (.trades (cleanOrders st (asTrades (st openTradesStr)))), true) := by
      rw [cleanTradesW_eq, if_pos hany]
    have hne := cleanOrders_ne_of_change st (asTrades (st openTradesStr)) hany
    refine ⟨?_, ?_, ?_, ?_⟩
    · rw [hcw]
      exact ⟨fun _ => hne, fun _ => rfl⟩
    · rw [hcw]
      intro h
      cases h
    · rw [hcw]
      intro _ heq
      have heq' : putState st openTradesStr
          (.trades (cleanOrders st (asTrades (st openTradesStr)))) = st := heq
      have hval := congrFun heq' openTradesStr
      rw [putState_same, hstore] at hval
      exact hne (Val.trades.inj (Option.some.inj hval))
    · rw [hcw]
      show cleanTradesW (putState st openTradesStr
          (.trades (cleanOrders st (asTrades (st openTradesStr))))) =
        (putState st openTradesStr
          (.trades (cleanOrders st (asTrades (st openTradesStr)))), false)
      have hb : ∀ k, asBet ((putState st openTradesStr
          (.trades (cleanOrders st (asTrades (st openTradesStr))))) k) =
            asBet (st k) := by
        intro k
        by_cases hk : k = openTradesStr
        · subst hk
          rw [putState_same, hstore]
          rfl
        · rw [putState_other _ _ _ _ hk]
      have hi : asIndex ((putState st openTradesStr
          (.trades (cleanOrders st (asTrades (st openTradesStr)))))
            betIndexStr) = asIndex (st betIndexStr) := by
        rw [putState_other _ _ _ _ (by decide)]
      have hok : okD (putState st openTradesStr
          (.trades (cleanOrders st (asTrades (st openTradesStr))))) = okD st := by
        funext u d
        rw [okD, okD, findBet4Trade_congr _ _ hb hi]
      have hL2 : asTrades ((putState st openTradesStr
          (.trades (cleanOrders st (asTrades (st openTradesStr)))))
            openTradesStr) = cleanOrders st (asTrades (st openTradesStr)) := by
        rw [putState_same]
        rfl
      have hflag : (asTrades ((putState st openTradesStr
          (.trades (cleanOrders st (asTrades (st openTradesStr)))))
            openTradesStr)).any (changedP (putState st openTradesStr
              (.trades (cleanOrders st (asTrades (st openTradesStr)))))) =
                false := by
        rw [hL2, List.any_eq_false]
        intro t ht
        have hm := cleanOrders_mem st (asTrades (st openTradesStr)) t ht
        have hfil : t.Willing.filter (okD st t.User) = t.Willing :=
          List.filter_eq_self.mpr hm.2
        simp only [changedP, hok]
        rw [Bool.not_eq_true, Bool.or_eq_false_iff]
        constructor
        · rw [List.any_eq_false]
          intro d hd
          simp [hm.2 d hd]
        · rw [hfil]
          simp [hm.1]
      rw [cleanTradesW_eq,
        if_neg (by rw [hflag]; exact fun h => Bool.noConfusion h)]
  · have hcw : cleanTradesW st = (st, false) := by
      rw [cleanTradesW_eq, if_neg hany]
    have hany' : (asTrades (st openTradesStr)).any (changedP st) = false := by
      revert hany
      cases (asTrades (st openTradesStr)).any (changedP st) <;> simp
    have hid := cleanOrders_of_no_change st (asTrades (st openTradesStr)) hany'
    refine ⟨?_, ?_, ?_, ?_⟩
    · rw [hcw]
      constructor
      · intro h
        cases h
      · intro h
        exact absurd hid h
    · intro _
      rw [hcw]
    · rw [hcw]
      intro h
      cases h
    · rw [hcw]
      exact hcw

/-- C6 witness: on the `c3St` scenario the first pass removes an offer and
writes a changed book. -/
theorem C6_witness : (cleanTradesW c3St).1 ≠ c3St :=
  (C6_reconcile_idempotent c3St).2.2.1 (by decide)

end Marbles
